import Mathlib

/-!
Verification of the chromedriver-utils driver-acquisition pipeline
(`src/download.py`): version probing from the application manifest,
catalog resolution, artifact fetching, and permission fixing.

Modelling conventions:
- filesystem paths are lists of components; `os.path.join d x` is `d ++ [x]`;
- the filesystem is a map from paths to entry metadata;
- HTTP responses (catalog endpoint, archive endpoint) and the content of the
  downloaded zip archive are inputs of the model;
- a Python exception is an `Except.error`; a function that mutates the
  filesystem returns the filesystem alongside its result, so that an
  exception leaves the filesystem as mutated so far.
-/

deriving instance DecidableEq for Except

namespace ChromedriverUtils

/-- Filesystem path, as a list of components. -/
abbrev FsPath := List String

/-- Metadata of a filesystem entry: directory flag and permission mode bits. -/
structure FileInfo where
  isDir : Bool
  mode : Nat
deriving DecidableEq, Repr

/-- Filesystem state: a map from paths to entries. -/
def FS := FsPath → Option FileInfo

/-- Write (create or overwrite) the entry at a path. -/
def FS.write (fs : FS) (p : FsPath) (fi : FileInfo) : FS :=
  fun q => if q = p then some fi else fs q

/-- Remove the entry at a path. -/
def FS.erase (fs : FS) (p : FsPath) : FS :=
  fun q => if q = p then none else fs q

/-- Model of `shutil.rmtree d`: remove `d` and everything below it. -/
def FS.rmtreeAll (fs : FS) (d : FsPath) : FS :=
  fun q => if d.isPrefixOf q then none else fs q

/-- Create a directory entry at a path unless an entry already exists there
(used for the directories produced by zip extraction). -/
def FS.mkdir (fs : FS) (p : FsPath) : FS :=
  match fs p with
  | some _ => fs
  | none => fs.write p ⟨true, 493⟩

/-- Exceptions raised (directly or through libraries) by `download.py`. -/
inductive Err where
  | jsonDecodeError : Err
  | keyError : String → Err
  | typeError : Err
  | indexError : Err
  | stopIteration : Err
  | httpError : Nat → Err
  | fileNotFound : FsPath → Err
  | notADirectory : FsPath → Err
  | isADirectory : FsPath → Err
  | versionNotFound : Err
deriving DecidableEq, Repr

/-- Constant `XML_VERSION_KEY` of `download.py` (line 12). -/
def XML_VERSION_KEY : String := "KSVersion"

/-- Child element of the plist dict element: its tag name and its inner text
(`none` when the element has no text). -/
structure XmlEntry where
  tag : String
  text : Option String
deriving DecidableEq, Repr

/-- Scanning loop of `get_chrome_version` (lines 43-63 of `download.py`);
the first argument is the `found_key` flag.  A child whose tag is not
`key` is skipped while the flag is unset; a `key` child whose text equals
`XML_VERSION_KEY` sets the flag; once the flag is set, the text of the very
next child is returned.  The final `raise Exception(...)` of line 63 is
`Err.versionNotFound`. -/
def findVersion : Bool → List XmlEntry → Except Err (Option String)
  | _, [] => .error .versionNotFound
  | false, child :: rest =>
    if child.tag ≠ "key" then findVersion false rest
    else if child.text = some XML_VERSION_KEY then findVersion true rest
    else findVersion false rest
  | true, child :: _ => .ok child.text

/-- Model of `get_chrome_version` (lines 15-63): the manifest is the list of
children of the XML root; `next(iter(root))` takes the first child (the
dict element), raising `StopIteration` when the root has no children. -/
def get_chrome_version (root : List (List XmlEntry)) : Except Err (Option String) :=
  match root with
  | [] => .error .stopIteration
  | dict_tag :: _ => findVersion false dict_tag

/-- Splitter at the first occurrence: `tailAfter a l = some l2` exactly when
`l = l1 ++ a :: l2` with `a` not occurring in `l1`. -/
def tailAfter (a : Char) : List Char → Option (List Char)
  | [] => none
  | b :: bs => if a = b then some bs else tailAfter a bs

/-- Modelled from the spec: the matched-character count of the similarity
measure used on line 105 (`difflib.SequenceMatcher(...).ratio()` is external
standard-library code, absent from `src/`); the spec describes it as a
longest-common-subsequence-based measure, so `lcsLen` computes the length of
a longest common subsequence.  The head is matched to the first possible
occurrence, which is optimal for the LCS length (proved below by
`lcsLen_le` and `exists_common_sublist_lcsLen`). -/
def lcsLen : List Char → List Char → Nat
  | [], _ => 0
  | a :: as, bs =>
    match tailAfter a bs with
    | none => lcsLen as bs
    | some bs2 => max (lcsLen as bs) (lcsLen as bs2 + 1)

/-- Modelled from the spec: the similarity of two version strings,
`2 * M / T` where `M` is the matched-character count and `T` the total
length of both strings (`1` when `T = 0`, as difflib returns `1.0` there). -/
def similarity (a b : String) : ℚ :=
  if a.length + b.length = 0 then 1
  else ((2 * lcsLen a.data b.data : ℕ) : ℚ) / ((a.length + b.length : ℕ) : ℚ)

/-- Per-platform download descriptor of the catalog JSON. -/
structure PlatformDownload where
  platform : String
  url : String
deriving DecidableEq, Repr

/-- Element of the catalog `versions` array: its `version` string and its
`downloads` object (artifact kind mapped to a descriptor list). -/
structure CatalogEntry where
  version : String
  downloads : List (String × List PlatformDownload)
deriving DecidableEq, Repr

/-- Dict lookup of the first binding of a key. -/
def lookupKey (l : List (String × List PlatformDownload)) (k : String) :
    Option (List PlatformDownload) :=
  match l with
  | [] => none
  | (k2, v) :: rest => if k2 = k then some v else lookupKey rest k

/-- Parsed catalog document: `versions?` is `none` when the JSON object has
no `versions` key. -/
structure CatalogDoc where
  versions? : Option (List CatalogEntry)
deriving DecidableEq, Repr

/-- HTTP response of the catalog endpoint: status code and parsed body
(`none` when the body is not valid JSON). -/
structure Response where
  status_code : Nat
  json? : Option CatalogDoc
deriving DecidableEq, Repr

/-- Selection loop of `get_chromedriver_download_url` (lines 101-116): the
state is `some (most_similar__ratio, most_similar__index)`, initially
`none`; `condition1` is the `none` state, `condition2` requires the current
similarity to be strictly greater than the recorded one. -/
def select_loop (our_version : String) :
    List String → Nat → Option (ℚ × Nat) → Option (ℚ × Nat)
  | [], _, st => st
  | version :: rest, index, st =>
    match st with
    | none =>
      select_loop our_version rest (index + 1) (some (similarity version our_version, index))
    | some (r, i) =>
      if r < similarity version our_version then
        select_loop our_version rest (index + 1) (some (similarity version our_version, index))
      else
        select_loop our_version rest (index + 1) (some (r, i))

/-- Run of the selection loop over the whole version list. -/
def best_match (our_version : String) (version_numbers : List String) :
    Option (ℚ × Nat) :=
  select_loop our_version version_numbers 0 none

/-- Lines 125-127: `most_similar["downloads"]["chromedriver"]`, then
`next(entry for entry in platforms if entry["platform"] == "mac-x64")`;
an exhausted `next` raises `StopIteration`. -/
def entry_url (most_similar : CatalogEntry) : Except Err String :=
  match lookupKey most_similar.downloads "chromedriver" with
  | none => .error (.keyError "chromedriver")
  | some platforms =>
    match platforms.find? (fun entry => entry.platform == "mac-x64") with
    | none => .error .stopIteration
    | some mac_x64 => .ok mac_x64.url

/-- Model of `get_chromedriver_download_url` (lines 66-128), taking the
fetched catalog response as input.  The status code of the response is
never consulted: the body is parsed regardless (the code calls
`response.json()` directly, without `raise_for_status`). -/
def get_chromedriver_download_url (response : Response) (our_version : String) :
    Except Err String :=
  match response.json? with
  | none => .error .jsonDecodeError
  | some body =>
    match body.versions? with
    | none => .error (.keyError "versions")
    | some data =>
      match best_match our_version (data.map (·.version)) with
      | none => .error .typeError
      | some (_, most_similar__index) =>
        match data[most_similar__index]? with
        | none => .error .indexError
        | some most_similar => entry_url most_similar

/-- Member of the downloaded zip archive: path relative to the extraction
root, directory flag, and the mode the entry carries after extraction. -/
structure ZipMember where
  rel : FsPath
  isDir : Bool
  mode : Nat
deriving DecidableEq, Repr

/-- Streamed HTTP response of the archive endpoint: status code and the
archive content given by its member list. -/
structure ArchiveResponse where
  status_code : Nat
  members : List ZipMember
deriving DecidableEq, Repr

/-- Nonempty proper ancestor directories of a relative member path. -/
def properAncestors (rel : FsPath) : List FsPath :=
  (List.range (rel.length - 1)).map (fun k => rel.take (k + 1))

/-- Extraction of one archive member: create its ancestor directories, then
the member itself (overwriting an existing file of the same name). -/
def extractOne (dest : FsPath) (fs : FS) (m : ZipMember) : FS :=
  let fs2 := (properAncestors m.rel).foldl (fun acc p => acc.mkdir (dest ++ p)) fs
  if m.isDir then fs2.mkdir (dest ++ m.rel)
  else fs2.write (dest ++ m.rel) ⟨false, m.mode⟩

/-- Model of `ZipFile.extractall(dest_dir)` (lines 160-161). -/
def extractall (dest : FsPath) (fs : FS) (members : List ZipMember) : FS :=
  members.foldl (extractOne dest) fs

/-- Mode bits of the freshly written archive file. -/
def ZIP_FILE_MODE : Nat := 420

/-- Model of `download_chromedriver(url, dest_dir)` (lines 131-177), with
the archive endpoint modelled as a map from URLs to responses.  Order of
effects follows the source: `raise_for_status` before the archive file is
opened, then write, extract, move, remove the archive, remove the
extracted directory tree.  An exception leaves the filesystem as mutated
so far. -/
def download_chromedriver (archiveAt : String → ArchiveResponse) (url : String)
    (dest_dir : FsPath) (fs : FS) : Except Err FsPath × FS :=
  let zip_path := dest_dir ++ ["chromedriver.zip"]
  let response := archiveAt url
  if 400 ≤ response.status_code then
    (.error (.httpError response.status_code), fs)
  else
    let fs1 := fs.write zip_path ⟨false, ZIP_FILE_MODE⟩
    let fs2 := extractall dest_dir fs1 response.members
    let unzipped_dir := dest_dir ++ ["chromedriver-mac-x64"]
    let chromedriver_src_path := unzipped_dir ++ ["chromedriver"]
    let chromedriver_dest_path := dest_dir ++ ["chromedriver"]
    match fs2 chromedriver_src_path with
    | none => (.error (.fileNotFound chromedriver_src_path), fs2)
    | some fi =>
      let fs3 := (fs2.erase chromedriver_src_path).write chromedriver_dest_path fi
      match fs3 zip_path with
      | none => (.error (.fileNotFound zip_path), fs3)
      | some zfi =>
        if zfi.isDir then (.error (.isADirectory zip_path), fs3)
        else
          let fs4 := fs3.erase zip_path
          match fs4 unzipped_dir with
          | none => (.error (.fileNotFound unzipped_dir), fs4)
          | some dfi =>
            if dfi.isDir then (.ok chromedriver_dest_path, fs4.rmtreeAll unzipped_dir)
            else (.error (.notADirectory unzipped_dir), fs4)

/-- Constant `stat.S_IRWXU` = 0o700: owner read, write and execute. -/
def S_IRWXU : Nat := 448

/-- Model of `os.chmod(path, mode)`: sets the mode bits of an existing
entry to exactly `mode`. -/
def os_chmod (fs : FS) (p : FsPath) (mode : Nat) : Except Err Unit × FS :=
  match fs p with
  | none => (.error (.fileNotFound p), fs)
  | some fi => (.ok (), fs.write p ⟨fi.isDir, mode⟩)

/-- Model of `amend_permission()` (lines 180-194).  The path is rooted at
the directory of the module file (`os.path.dirname(__file__)`), not at the
destination directory of the download. -/
def amend_permission (module_dir : FsPath) (fs : FS) : Except Err Unit × FS :=
  os_chmod fs (module_dir ++ ["chromedriver"]) S_IRWXU

/-- Model of `download(dest_dir)` (lines 197-218), the whole pipeline.  The
manifest document, the catalog response, the archive endpoint and the
module directory are the ambient world of the run.  A `None` version from
the probe would make `SequenceMatcher` raise a `TypeError`. -/
def download (manifest : List (List XmlEntry)) (catalog : Response)
    (archiveAt : String → ArchiveResponse) (module_dir : FsPath) (fs : FS)
    (dest_dir : Option FsPath) : Except Err FsPath × FS :=
  match get_chrome_version manifest with
  | .error e => (.error e, fs)
  | .ok none => (.error .typeError, fs)
  | .ok (some version) =>
    match get_chromedriver_download_url catalog version with
    | .error e => (.error e, fs)
    | .ok url =>
      match download_chromedriver archiveAt url (dest_dir.getD module_dir) fs with
      | (.error e, fs2) => (.error e, fs2)
      | (.ok filepath, fs2) =>
        match amend_permission module_dir fs2 with
        | (.error e, fs3) => (.error e, fs3)
        | (.ok _, fs3) => (.ok filepath, fs3)

/-! Concrete worlds used by the witnesses below.  The catalogs are kept to a
single entry so that runs never force a rational comparison. -/

/-- Manifest with the version key followed by the version string "1". -/
def exManifest : List (List XmlEntry) :=
  [[⟨"key", some "KSVersion"⟩, ⟨"string", some "1"⟩]]

/-- One-entry catalog carrying a mac-x64 chromedriver download. -/
def exCatalogData : List CatalogEntry :=
  [⟨"1", [("chromedriver", [⟨"mac-x64", "urlA"⟩])]⟩]

/-- Catalog response, status 200, valid body. -/
def exCatalog : Response := ⟨200, some ⟨some exCatalogData⟩⟩

/-- Catalog response with HTTP failure status 500 and a valid body. -/
def exCatalog500 : Response := ⟨500, some ⟨some exCatalogData⟩⟩

/-- Catalog response with HTTP failure status 500 and a non-JSON body. -/
def exBadCatalog500 : Response := ⟨500, none⟩

/-- Typical archive: one root directory holding the executable and the
license file. -/
def exArchive : ArchiveResponse :=
  ⟨200,
    [⟨["chromedriver-mac-x64"], true, 493⟩,
     ⟨["chromedriver-mac-x64", "chromedriver"], false, 420⟩,
     ⟨["chromedriver-mac-x64", "LICENSE.chromedriver"], false, 420⟩]⟩

/-- Archive endpoint serving `exArchive` at every URL. -/
def exArchiveAt : String → ArchiveResponse := fun _ => exArchive

/-- The directory of the module file in the example world. -/
def exModuleDir : FsPath := ["app"]

/-- Initial filesystem: a stale `chromedriver` next to the module file and
nothing else. -/
def exFS : FS :=
  fun p => if p = ["app", "chromedriver"] then some ⟨false, 448⟩ else none

/-! Helper lemmas about the version-probe scan. -/

/-- Entries that are not a matching version key are skipped by the scan. -/
theorem findVersion_skip (pre : List XmlEntry)
    (hpre : ∀ x ∈ pre, ¬(x.tag = "key" ∧ x.text = some XML_VERSION_KEY)) :
    ∀ tail, findVersion false (pre ++ tail) = findVersion false tail := by
  induction pre with
  | nil => intro tail; rfl
  | cons x pre ih =>
    intro tail
    have hx := hpre x (List.mem_cons_self x pre)
    have hrest : ∀ y ∈ pre, ¬(y.tag = "key" ∧ y.text = some XML_VERSION_KEY) :=
      fun y hy => hpre y (List.mem_cons_of_mem x hy)
    by_cases htag : x.tag = "key"
    · have htext : ¬ x.text = some XML_VERSION_KEY := fun ht => hx ⟨htag, ht⟩
      simp only [List.cons_append, findVersion, htag, htext]
      simpa using ih hrest tail
    · simp only [List.cons_append, findVersion, if_pos htag]
      simpa [htag] using ih hrest tail

/-! Helper lemmas about paths. -/

/-- Appending different final components gives different paths. -/
theorem append_last_ne (xs : List String) (a b : String) (h : a ≠ b) :
    xs ++ [a] ≠ xs ++ [b] := by
  intro hEq
  exact h (by simpa using List.append_cancel_left hEq)

/-- A path is not a prefix of a path that differs in the next component. -/
theorem isPrefixOf_append_last_ne (xs : List String) (a b : String) (ys zs : List String)
    (h : a ≠ b) : (xs ++ a :: ys).isPrefixOf (xs ++ b :: zs) = false := by
  induction xs with
  | nil => simp [List.isPrefixOf, h]
  | cons x xs ih => simpa [List.isPrefixOf] using ih

/-! Verification of the artifact fetcher. -/

/-- C4: after a successful `download_chromedriver` run the destination
directory holds the relocated executable at `<dest_dir>/chromedriver`, the
archive file `<dest_dir>/chromedriver.zip` is gone, nothing remains at or
below the extracted subdirectory `<dest_dir>/chromedriver-mac-x64`, and the
returned value is the path of the relocated executable. -/
theorem artifact_fetcher_cleanup (archiveAt : String → ArchiveResponse) (url : String)
    (dest_dir : FsPath) (fs : FS) (out : FsPath)
    (h : (download_chromedriver archiveAt url dest_dir fs).1 = .ok out) :
    out = dest_dir ++ ["chromedriver"] ∧
    (∃ fi, (download_chromedriver archiveAt url dest_dir fs).2 (dest_dir ++ ["chromedriver"]) = some fi) ∧
    (download_chromedriver archiveAt url dest_dir fs).2 (dest_dir ++ ["chromedriver.zip"]) = none ∧
    ∀ p, (dest_dir ++ ["chromedriver-mac-x64"]).isPrefixOf p = true →
      (download_chromedriver archiveAt url dest_dir fs).2 p = none := by
  rcases hE : download_chromedriver archiveAt url dest_dir fs with ⟨res, fsF⟩
  rw [hE] at h
  simp only at h
  subst h
  simp only [download_chromedriver] at hE
  split at hE
  · simp at hE
  · split at hE
    · simp at hE
    · rename_i fi hsrc
      split at hE
      · simp at hE
      · rename_i zfi hzip
        split at hE
        · simp at hE
        · split at hE
          · simp at hE
          · rename_i dfi hdir
            split at hE
            · simp only [Prod.mk.injEq, Except.ok.injEq] at hE
              obtain ⟨h1, h2⟩ := hE
              have hne1 : ("chromedriver-mac-x64" : String) ≠ "chromedriver" := by decide
              have hne2 : ("chromedriver" : String) ≠ "chromedriver.zip" := by decide
              have hpre1 : ((dest_dir ++ ["chromedriver-mac-x64"]).isPrefixOf
                  (dest_dir ++ ["chromedriver"])) = false :=
                isPrefixOf_append_last_ne dest_dir _ _ [] [] hne1
              refine ⟨h1.symm, ?_, ?_, ?_⟩
              · refine ⟨fi, ?_⟩
                rw [← h2]
                simp only [FS.rmtreeAll, hpre1, Bool.false_eq_true, if_false, FS.erase,
                  FS.write, if_neg (append_last_ne dest_dir _ _ hne2), if_pos rfl]
                simp
              · rw [← h2]
                simp only [FS.rmtreeAll, FS.erase]
                split
                · rfl
                · simp
              · intro p hp
                rw [← h2]
                simp only [FS.rmtreeAll, hp, if_true]
            · simp at hE

/-- Witness for C4: a successful run in a concrete world. -/
theorem artifact_fetcher_cleanup_witness :
    (["tmp", "chromedriver"] : FsPath) = ["tmp"] ++ ["chromedriver"] ∧
    (∃ fi, (download_chromedriver exArchiveAt "urlA" ["tmp"] exFS).2
      (["tmp"] ++ ["chromedriver"]) = some fi) ∧
    (download_chromedriver exArchiveAt "urlA" ["tmp"] exFS).2
      (["tmp"] ++ ["chromedriver.zip"]) = none ∧
    ∀ p, ((["tmp"] : FsPath) ++ ["chromedriver-mac-x64"]).isPrefixOf p = true →
      (download_chromedriver exArchiveAt "urlA" ["tmp"] exFS).2 p = none :=
  artifact_fetcher_cleanup exArchiveAt "urlA" ["tmp"] exFS ["tmp", "chromedriver"] (by decide)

/-! Verification of the version probe. -/

/-- C8: a manifest whose entries contain no key-tagged entry with the text
`KSVersion` makes `get_chrome_version` raise the final exception instead of
returning a value. -/
theorem version_probe_missing_key_error (entries : List XmlEntry)
    (rest : List (List XmlEntry))
    (h : ∀ x ∈ entries, ¬(x.tag = "key" ∧ x.text = some XML_VERSION_KEY)) :
    get_chrome_version (entries :: rest) = .error .versionNotFound := by
  have hskip := findVersion_skip entries h []
  simp only [List.append_nil] at hskip
  simpa [get_chrome_version] using hskip

/-- Witness for C8. -/
theorem version_probe_missing_key_error_witness :
    get_chrome_version [[⟨"key", some "Other"⟩, ⟨"string", some "x"⟩]] =
      .error .versionNotFound :=
  version_probe_missing_key_error [⟨"key", some "Other"⟩, ⟨"string", some "x"⟩] []
    (by decide)

/-- C6 (amended): when the FIRST key-tagged entry with text `KSVersion` is
immediately followed by an entry with text `V`, the probe returns `V`.  (The
restriction to the first occurrence is forced by the counterexample
below.) -/
theorem version_probe_first_key_occurrence (pre post : List XmlEntry)
    (e nxt : XmlEntry) (rest : List (List XmlEntry)) (V : String)
    (hpre : ∀ x ∈ pre, ¬(x.tag = "key" ∧ x.text = some XML_VERSION_KEY))
    (htag : e.tag = "key") (htext : e.text = some XML_VERSION_KEY)
    (hv : nxt.text = some V) :
    get_chrome_version ((pre ++ e :: nxt :: post) :: rest) = .ok (some V) := by
  simp only [get_chrome_version, findVersion_skip pre hpre]
  simp [findVersion, htag, htext, hv]

/-- Witness for C6 (amended). -/
theorem version_probe_first_key_occurrence_witness :
    get_chrome_version (([⟨"key", some "Foo"⟩] ++
        ⟨"key", some "KSVersion"⟩ :: ⟨"string", some "9"⟩ :: []) :: []) =
      .ok (some "9") :=
  version_probe_first_key_occurrence [⟨"key", some "Foo"⟩] []
    ⟨"key", some "KSVersion"⟩ ⟨"string", some "9"⟩ [] "9" (by decide) rfl rfl rfl

/-- Entry list with the version key occurring twice, with different
following values. -/
def exDupEntries : List XmlEntry :=
  [⟨"key", some "KSVersion"⟩, ⟨"string", some "A"⟩,
   ⟨"key", some "KSVersion"⟩, ⟨"string", some "B"⟩]

/-- Counterexample to C6 as stated: `exDupEntries` contains a key-tagged
entry with text `KSVersion` (at index 2) immediately followed by an entry
with text "B", yet the probe does not return "B" (it returns "A", the value
after the first occurrence). -/
theorem version_probe_duplicate_key_counterexample :
    exDupEntries[2]? = some ⟨"key", some XML_VERSION_KEY⟩ ∧
    (exDupEntries[3]?).map XmlEntry.text = some (some "B") ∧
    get_chrome_version [exDupEntries] ≠ .ok (some "B") ∧
    get_chrome_version [exDupEntries] = .ok (some "A") := by
  refine ⟨rfl, rfl, by decide, by decide⟩

/-- C9: when the first matching version-key entry is the last entry of the
container, the loop exhausts the entries with the marker set and the probe
raises the final not-found exception instead of returning a value. -/
theorem version_probe_key_last_error (pre : List XmlEntry) (e : XmlEntry)
    (rest : List (List XmlEntry))
    (hpre : ∀ x ∈ pre, ¬(x.tag = "key" ∧ x.text = some XML_VERSION_KEY))
    (htag : e.tag = "key") (htext : e.text = some XML_VERSION_KEY) :
    get_chrome_version ((pre ++ [e]) :: rest) = .error .versionNotFound := by
  simp only [get_chrome_version, findVersion_skip pre hpre]
  simp [findVersion, htag, htext]

/-- Witness for C9. -/
theorem version_probe_key_last_error_witness :
    get_chrome_version (([⟨"string", some "x"⟩] ++ [⟨"key", some "KSVersion"⟩]) :: []) =
      .error .versionNotFound :=
  version_probe_key_last_error [⟨"string", some "x"⟩] ⟨"key", some "KSVersion"⟩ []
    (by decide) rfl rfl

/-! Verification of the permission fixer and the pipeline. -/

/-- C10: `amend_permission` sets the mode bits of the target file to exactly
`S_IRWXU` = 0o700: the owner gets read, write and execute, while every
group and other permission bit is cleared regardless of the previous
mode. -/
theorem permission_fixer_sets_exact_mode (module_dir : FsPath) (fs : FS)
    (fi : FileInfo) (h : fs (module_dir ++ ["chromedriver"]) = some fi) :
    (amend_permission module_dir fs).1 = .ok () ∧
    (amend_permission module_dir fs).2 (module_dir ++ ["chromedriver"]) =
      some ⟨fi.isDir, S_IRWXU⟩ ∧
    S_IRWXU = 448 ∧ S_IRWXU % 8 = 0 ∧ S_IRWXU / 8 % 8 = 0 ∧ S_IRWXU / 64 % 8 = 7 := by
  refine ⟨?_, ?_, by decide, by decide, by decide, by decide⟩
  · simp [amend_permission, os_chmod, h]
  · simp [amend_permission, os_chmod, h, FS.write]

/-- Witness for C10: the stale executable of the example world, previous
mode 0o700, gets mode exactly 0o700. -/
theorem permission_fixer_sets_exact_mode_witness :
    (amend_permission exModuleDir exFS).1 = .ok () ∧
    (amend_permission exModuleDir exFS).2 (exModuleDir ++ ["chromedriver"]) =
      some ⟨false, S_IRWXU⟩ ∧
    S_IRWXU = 448 ∧ S_IRWXU % 8 = 0 ∧ S_IRWXU / 8 % 8 = 0 ∧ S_IRWXU / 64 % 8 = 7 :=
  permission_fixer_sets_exact_mode exModuleDir exFS ⟨false, 448⟩ (by decide)

/-- C2 is violated by the code: in a run with caller-supplied destination
`["tmp"]` (different from the module directory `["app"]`), the pipeline
succeeds and returns `["tmp", "chromedriver"]`, but that file keeps the
non-executable mode 0o644 it had on extraction (owner execute bit clear),
because the permission-fix step touched `["app", "chromedriver"]`
instead. -/
theorem pipeline_permission_fix_misses_destination :
    (download exManifest exCatalog exArchiveAt exModuleDir exFS (some ["tmp"])).1 =
      .ok ["tmp", "chromedriver"] ∧
    (download exManifest exCatalog exArchiveAt exModuleDir exFS (some ["tmp"])).2
      ["tmp", "chromedriver"] = some ⟨false, 420⟩ ∧
    420 / 64 % 2 = 0 ∧
    (download exManifest exCatalog exArchiveAt exModuleDir exFS (some ["tmp"])).2
      ["app", "chromedriver"] = some ⟨false, S_IRWXU⟩ := by
  refine ⟨by decide, by decide, by decide, by decide⟩

/-- Counterexample to C3 as stated: with HTTP failure status 500 on the
catalog fetch but a valid JSON body, the pipeline does not abort at all (the
status is never consulted): it completes and writes files. -/
theorem pipeline_ignores_catalog_status :
    exCatalog500.status_code = 500 ∧
    (download exManifest exCatalog500 exArchiveAt exModuleDir exFS (some ["tmp2"])).1 =
      .ok ["tmp2", "chromedriver"] ∧
    exFS ["tmp2", "chromedriver"] = none ∧
    (download exManifest exCatalog500 exArchiveAt exModuleDir exFS (some ["tmp2"])).2
      ["tmp2", "chromedriver"] = some ⟨false, 420⟩ := by
  refine ⟨rfl, by decide, by decide, by decide⟩

/-- C3 (amended): the catalog fetch status is ignored; the pipeline aborts
at the catalog stage only when the response body is not a valid catalog
document, and then it aborts with a JSON-decode (catalog-format) error, not
a transport error, with the filesystem untouched.  This covers every status
code, in particular 500. -/
theorem pipeline_bad_catalog_body_aborts_without_writes
    (manifest : List (List XmlEntry)) (catalog : Response)
    (archiveAt : String → ArchiveResponse) (module_dir : FsPath) (fs : FS)
    (dest_dir : Option FsPath) (v : String)
    (hman : get_chrome_version manifest = .ok (some v))
    (hbody : catalog.json? = none) :
    download manifest catalog archiveAt module_dir fs dest_dir =
      (.error .jsonDecodeError, fs) := by
  simp only [download, hman, get_chromedriver_download_url, hbody]

/-- Witness for C3 (amended): a status-500 catalog response with a non-JSON
body. -/
theorem pipeline_bad_catalog_body_aborts_without_writes_witness :
    download exManifest exBadCatalog500 exArchiveAt exModuleDir exFS (some ["tmp2"]) =
      (.error .jsonDecodeError, exFS) :=
  pipeline_bad_catalog_body_aborts_without_writes exManifest exBadCatalog500
    exArchiveAt exModuleDir exFS (some ["tmp2"]) "1" (by decide) rfl

/-! Lemmas about the similarity measure. -/

/-- Splitting lemma for `tailAfter`. -/
theorem tailAfter_eq_some_split (a : Char) :
    ∀ (l l2 : List Char), tailAfter a l = some l2 → ∃ l1, l = l1 ++ a :: l2 := by
  intro l
  induction l with
  | nil => intro l2 h; simp [tailAfter] at h
  | cons b bs ih =>
    intro l2 h
    by_cases hab : a = b
    · simp only [tailAfter, if_pos hab, Option.some.injEq] at h
      subst h
      exact ⟨[], by rw [hab]; rfl⟩
    · simp only [tailAfter, if_neg hab] at h
      obtain ⟨l1, rfl⟩ := ih l2 h
      exact ⟨b :: l1, rfl⟩

/-- An occurring character always has a `tailAfter` split. -/
theorem tailAfter_isSome_of_mem (a : Char) :
    ∀ l : List Char, a ∈ l → ∃ l2, tailAfter a l = some l2 := by
  intro l
  induction l with
  | nil => intro h; simp at h
  | cons b bs ih =>
    intro h
    by_cases hab : a = b
    · exact ⟨bs, by simp [tailAfter, hab]⟩
    · obtain ⟨l2, hl2⟩ := ih (List.mem_of_ne_of_mem hab h)
      exact ⟨l2, by simp [tailAfter, hab, hl2]⟩

/-- A common subsequence headed by `a` stays common after cutting both
lists at the first occurrence of `a` in the second list. -/
theorem sublist_tailAfter (a : Char) :
    ∀ (l w l2 : List Char), List.Sublist (a :: w) l → tailAfter a l = some l2 →
      List.Sublist w l2 := by
  intro l
  induction l with
  | nil => intro w l2 hs ht; simp at hs
  | cons b bs ih =>
    intro w l2 hs ht
    by_cases hab : a = b
    · simp only [tailAfter, if_pos hab, Option.some.injEq] at ht
      subst ht
      subst hab
      cases hs with
      | cons _ hs' => exact (List.sublist_cons_self a w).trans hs'
      | cons₂ _ hs' => exact hs'
    · simp only [tailAfter, if_neg hab] at ht
      cases hs with
      | cons _ hs' => exact ih w l2 hs' ht
      | cons₂ _ hs' => exact absurd rfl hab

/-- Dropping the head of the first list cannot increase the LCS length. -/
theorem lcsLen_cons_left_le (a : Char) (as bs : List Char) :
    lcsLen as bs ≤ lcsLen (a :: as) bs := by
  simp only [lcsLen]
  cases h : tailAfter a bs with
  | none => exact le_refl _
  | some bs2 => exact le_max_left _ _

/-- Soundness of `lcsLen` as an upper bound: every common subsequence is at
most `lcsLen` long. -/
theorem common_sublist_le_lcsLen :
    ∀ (x w y : List Char), List.Sublist w x → List.Sublist w y →
      w.length ≤ lcsLen x y := by
  intro x
  induction x with
  | nil =>
    intro w y hx _
    have hw : w = [] := List.sublist_nil.mp hx
    subst hw
    simp
  | cons a as ih =>
    intro w y hx hy
    cases hx with
    | cons _ hx' => exact le_trans (ih w y hx' hy) (lcsLen_cons_left_le a as y)
    | cons₂ _ hx' =>
      rename_i w'
      have hmem : a ∈ y := hy.subset (List.mem_cons_self a w')
      obtain ⟨y2, hy2⟩ := tailAfter_isSome_of_mem a y hmem
      have hw' : List.Sublist w' y2 := sublist_tailAfter a y w' y2 hy hy2
      calc (a :: w').length = w'.length + 1 := by simp
      _ ≤ lcsLen as y2 + 1 := Nat.succ_le_succ (ih w' y2 hx' hw')
      _ ≤ max (lcsLen as y) (lcsLen as y2 + 1) := le_max_right _ _
      _ = lcsLen (a :: as) y := by simp [lcsLen, hy2]

/-- Completeness of `lcsLen`: some common subsequence attains it. -/
theorem exists_common_sublist_lcsLen :
    ∀ (x y : List Char), ∃ w, List.Sublist w x ∧ List.Sublist w y ∧
      w.length = lcsLen x y := by
  intro x
  induction x with
  | nil => intro y; exact ⟨[], List.nil_sublist _, List.nil_sublist _, rfl⟩
  | cons a as ih =>
    intro y
    cases ht : tailAfter a y with
    | none =>
      obtain ⟨w, h1, h2, h3⟩ := ih y
      exact ⟨w, h1.trans (List.sublist_cons_self a as), h2, by simp [lcsLen, ht, h3]⟩
    | some y2 =>
      obtain ⟨w1, h11, h12, h13⟩ := ih y
      obtain ⟨w2, h21, h22, h23⟩ := ih y2
      rcases le_or_lt (lcsLen as y2 + 1) (lcsLen as y) with hle | hlt
      · refine ⟨w1, h11.trans (List.sublist_cons_self a as), h12, ?_⟩
        simp [lcsLen, ht, Nat.max_eq_left hle, h13]
      · obtain ⟨l1, rfl⟩ := tailAfter_eq_some_split a y y2 ht
        refine ⟨a :: w2, List.Sublist.cons₂ a h21, ?_, ?_⟩
        · exact (List.Sublist.cons₂ a h22).trans (List.sublist_append_right l1 (a :: y2))
        · simp [lcsLen, ht, Nat.max_eq_right (le_of_lt hlt), h23]

/-- The LCS length is bounded by the length of the first list. -/
theorem lcsLen_le_length_left : ∀ (x y : List Char), lcsLen x y ≤ x.length := by
  intro x
  induction x with
  | nil => intro y; simp [lcsLen]
  | cons a as ih =>
    intro y
    simp only [lcsLen]
    cases ht : tailAfter a y with
    | none => exact le_trans (ih y) (by simp)
    | some y2 =>
      apply max_le
      · exact le_trans (ih y) (by simp)
      · simpa using Nat.succ_le_succ (ih y2)

/-- The LCS length is symmetric. -/
theorem lcsLen_comm (x y : List Char) : lcsLen x y = lcsLen y x := by
  apply le_antisymm
  · obtain ⟨w, h1, h2, h3⟩ := exists_common_sublist_lcsLen x y
    calc lcsLen x y = w.length := h3.symm
    _ ≤ lcsLen y x := common_sublist_le_lcsLen y w x h2 h1
  · obtain ⟨w, h1, h2, h3⟩ := exists_common_sublist_lcsLen y x
    calc lcsLen y x = w.length := h3.symm
    _ ≤ lcsLen x y := common_sublist_le_lcsLen x w y h2 h1

/-- The LCS of a list with itself is the whole list. -/
theorem lcsLen_self (x : List Char) : lcsLen x x = x.length := by
  apply le_antisymm (lcsLen_le_length_left x x)
  simpa using common_sublist_le_lcsLen x x x (List.Sublist.refl x) (List.Sublist.refl x)

/-- The similarity ratio is symmetric. -/
theorem similarity_comm (a b : String) : similarity a b = similarity b a := by
  rw [similarity, similarity, lcsLen_comm, Nat.add_comm a.length b.length]

/-- The similarity ratio of a string with itself is 1. -/
theorem similarity_self (a : String) : similarity a a = 1 := by
  rw [similarity]
  by_cases h : a.length = 0
  · simp [h]
  · rw [if_neg (by omega), lcsLen_self]
    have hdata : a.data.length = a.length := rfl
    rw [hdata]
    have hne : ((a.length + a.length : ℕ) : ℚ) ≠ 0 := by
      exact_mod_cast (by omega : (a.length + a.length : ℕ) ≠ 0)
    rw [div_eq_one_iff_eq hne]
    push_cast
    ring

/-- C5: the similarity ratio used by the resolver is symmetric,
`similarity A B = similarity B A`, and equals 1 on identical strings. -/
theorem similarity_symm_and_self :
    (∀ A B : String, similarity A B = similarity B A) ∧
    ∀ A : String, similarity A A = 1 :=
  ⟨similarity_comm, similarity_self⟩

/-! Lemmas about the selection loop. -/

/-- Index shift for `List.get` on a cons cell. -/
theorem get_cons_add_one {α : Type} (v : α) (rest : List α) (k : Nat)
    (h1 : 1 + k < (v :: rest).length) (hk : k < rest.length) :
    (v :: rest).get ⟨1 + k, h1⟩ = rest.get ⟨k, hk⟩ := by
  have h2 : (⟨1 + k, h1⟩ : Fin (v :: rest).length) = ⟨k + 1, Nat.succ_lt_succ hk⟩ :=
    Fin.ext (Nat.add_comm 1 k)
  rw [h2]
  rfl

/-- Invariant of the selection loop started in state `some (r0, i0)`: the
final state keeps the start unless some element is strictly better than
everything before it, in which case the winner is the first element
attaining the final maximum — equal similarities never displace the
recorded best. -/
theorem select_loop_spec (our_version : String) (vs : List String) :
    ∀ (idx : Nat) (r0 : ℚ) (i0 : Nat),
    ∃ r i, select_loop our_version vs idx (some (r0, i0)) = some (r, i) ∧
      ((r = r0 ∧ i = i0 ∧
          ∀ j (h : j < vs.length), similarity (vs.get ⟨j, h⟩) our_version ≤ r0) ∨
        ∃ k, ∃ hk : k < vs.length, i = idx + k ∧
          r = similarity (vs.get ⟨k, hk⟩) our_version ∧ r0 < r ∧
          (∀ j (h : j < vs.length), similarity (vs.get ⟨j, h⟩) our_version ≤ r) ∧
          ∀ j (h : j < k), similarity (vs.get ⟨j, Nat.lt_trans h hk⟩) our_version < r) := by
  induction vs with
  | nil =>
    intro idx r0 i0
    exact ⟨r0, i0, rfl, Or.inl ⟨rfl, rfl, fun j h => absurd h (Nat.not_lt_zero j)⟩⟩
  | cons v rest ih =>
    intro idx r0 i0
    by_cases hc : r0 < similarity v our_version
    · obtain ⟨r, i, heq, hcase⟩ := ih (idx + 1) (similarity v our_version) idx
      refine ⟨r, i, ?_, Or.inr ?_⟩
      · simp only [select_loop, if_pos hc]
        exact heq
      · rcases hcase with ⟨hr, hi, hall⟩ | ⟨k, hk, hik, hrk, hgt, hall, hstrict⟩
        · subst hr; subst hi
          refine ⟨0, Nat.succ_pos rest.length, by omega, rfl, hc, ?_, ?_⟩
          · intro j h
            cases j with
            | zero => exact le_refl _
            | succ j2 => exact hall j2 (Nat.lt_of_succ_lt_succ h)
          · intro j h
            exact absurd h (Nat.not_lt_zero j)
        · subst hik; subst hrk
          refine ⟨k + 1, Nat.succ_lt_succ hk, by omega, rfl, lt_trans hc hgt, ?_, ?_⟩
          · intro j h
            cases j with
            | zero => exact le_of_lt hgt
            | succ j2 => exact hall j2 (Nat.lt_of_succ_lt_succ h)
          · intro j h
            cases j with
            | zero => exact hgt
            | succ j2 => exact hstrict j2 (Nat.lt_of_succ_lt_succ h)
    · obtain ⟨r, i, heq, hcase⟩ := ih (idx + 1) r0 i0
      refine ⟨r, i, ?_, ?_⟩
      · simp only [select_loop, if_neg hc]
        exact heq
      · rcases hcase with ⟨hr, hi, hall⟩ | ⟨k, hk, hik, hrk, hgt, hall, hstrict⟩
        · refine Or.inl ⟨hr, hi, ?_⟩
          intro j h
          cases j with
          | zero => exact le_of_not_lt hc
          | succ j2 => exact hall j2 (Nat.lt_of_succ_lt_succ h)
        · subst hik; subst hrk
          refine Or.inr ⟨k + 1, Nat.succ_lt_succ hk, by omega, rfl, hgt, ?_, ?_⟩
          · intro j h
            cases j with
            | zero => exact le_of_lt (lt_of_le_of_lt (le_of_not_lt hc) hgt)
            | succ j2 => exact hall j2 (Nat.lt_of_succ_lt_succ h)
          · intro j h
            cases j with
            | zero => exact lt_of_le_of_lt (le_of_not_lt hc) hgt
            | succ j2 => exact hstrict j2 (Nat.lt_of_succ_lt_succ h)

/-- Characterization of `best_match` on a nonempty list: it returns the
index of the entry with the strictly highest similarity, ties resolving to
the earliest index. -/
theorem best_match_spec (our_version : String) (vs : List String) (hne : vs ≠ []) :
    ∃ r i, best_match our_version vs = some (r, i) ∧ ∃ hi : i < vs.length,
      r = similarity (vs.get ⟨i, hi⟩) our_version ∧
      (∀ j (h : j < vs.length), similarity (vs.get ⟨j, h⟩) our_version ≤ r) ∧
      ∀ j (h : j < i), similarity (vs.get ⟨j, Nat.lt_trans h hi⟩) our_version < r := by
  match vs with
  | [] => exact absurd rfl hne
  | v :: rest =>
    obtain ⟨r, i, heq, hcase⟩ :=
      select_loop_spec our_version rest 1 (similarity v our_version) 0
    refine ⟨r, i, ?_, ?_⟩
    · simpa only [best_match, select_loop] using heq
    · rcases hcase with ⟨hr, hi, hall⟩ | ⟨k, hk, hik, hrk, hgt, hall, hstrict⟩
      · subst hr; subst hi
        refine ⟨Nat.succ_pos rest.length, rfl, ?_, ?_⟩
        · intro j h
          cases j with
          | zero => exact le_refl _
          | succ j2 => exact hall j2 (Nat.lt_of_succ_lt_succ h)
        · intro j h
          exact absurd h (Nat.not_lt_zero j)
      · subst hik; subst hrk
        have hi : 1 + k < (v :: rest).length := by
          simp only [List.length_cons]
          omega
        refine ⟨hi, ?_, ?_, ?_⟩
        · rw [get_cons_add_one v rest k hi hk]
        · intro j h
          cases j with
          | zero => exact le_of_lt hgt
          | succ j2 => exact hall j2 (Nat.lt_of_succ_lt_succ h)
        · intro j h
          cases j with
          | zero => exact hgt
          | succ j2 => exact hstrict j2 (by omega)

/-- C1: for every catalog and input version, the resolver selects the entry
whose version string has the strictly highest similarity to the input (only
a strictly greater similarity replaces the recorded best, so equal top
similarities resolve to the earliest index), and the returned value is the
platform lookup of exactly that entry. -/
theorem catalog_resolver_first_strict_max (response : Response) (body : CatalogDoc)
    (data : List CatalogEntry) (our_version : String)
    (hjson : response.json? = some body) (hvers : body.versions? = some data)
    (hne : data ≠ []) :
    ∃ i, ∃ hi : i < data.length,
      (∀ j (hj : j < data.length),
        similarity (data.get ⟨j, hj⟩).version our_version ≤
          similarity (data.get ⟨i, hi⟩).version our_version) ∧
      (∀ j (hj : j < i),
        similarity (data.get ⟨j, Nat.lt_trans hj hi⟩).version our_version <
          similarity (data.get ⟨i, hi⟩).version our_version) ∧
      get_chromedriver_download_url response our_version =
        entry_url (data.get ⟨i, hi⟩) := by
  have hne2 : data.map (·.version) ≠ [] := by simpa using hne
  obtain ⟨r, i, hbm, hi2, hr, hall, hstrict⟩ :=
    best_match_spec our_version (data.map (·.version)) hne2
  have hlen : (data.map (·.version)).length = data.length := List.length_map _ _
  have hi : i < data.length := hlen ▸ hi2
  have hconv : ∀ (j : Nat) (hj2 : j < (data.map (·.version)).length) (hj : j < data.length),
      (data.map (·.version)).get ⟨j, hj2⟩ = (data.get ⟨j, hj⟩).version := by
    intro j hj2 hj
    simp [List.get_eq_getElem]
  have hrv : r = similarity (data.get ⟨i, hi⟩).version our_version := by
    rw [hr, hconv i hi2 hi]
  refine ⟨i, hi, ?_, ?_, ?_⟩
  · intro j hj
    have h1 := hall j (by simpa using hj)
    rw [hconv j (by simpa using hj) hj] at h1
    rw [← hrv]
    exact h1
  · intro j hj
    have h1 := hstrict j hj
    rw [hconv j (by simp; omega) (Nat.lt_trans hj hi)] at h1
    rw [← hrv]
    exact h1
  · simp only [get_chromedriver_download_url, hjson, hvers, hbm]
    rw [List.getElem?_eq_getElem hi]
    simp [List.get_eq_getElem]

/-- Witness for C1: a concrete catalog and input. -/
theorem catalog_resolver_first_strict_max_witness :
    ∃ i, ∃ hi : i < exCatalogData.length,
      (∀ j (hj : j < exCatalogData.length),
        similarity (exCatalogData.get ⟨j, hj⟩).version "1" ≤
          similarity (exCatalogData.get ⟨i, hi⟩).version "1") ∧
      (∀ j (hj : j < i),
        similarity (exCatalogData.get ⟨j, Nat.lt_trans hj hi⟩).version "1" <
          similarity (exCatalogData.get ⟨i, hi⟩).version "1") ∧
      get_chromedriver_download_url exCatalog "1" =
        entry_url (exCatalogData.get ⟨i, hi⟩) :=
  catalog_resolver_first_strict_max exCatalog ⟨some exCatalogData⟩ exCatalogData "1"
    rfl rfl (by decide)

/-- C7: when the winning entry carries a chromedriver download list with no
descriptor for the fixed target platform `mac-x64`, the resolver raises the
no-matching-element error of the exhausted `next` generator. -/
theorem catalog_resolver_missing_platform_error (response : Response)
    (body : CatalogDoc) (data : List CatalogEntry) (our_version : String)
    (r : ℚ) (i : Nat) (pds : List PlatformDownload)
    (hjson : response.json? = some body) (hvers : body.versions? = some data)
    (hbm : best_match our_version (data.map (·.version)) = some (r, i))
    (hi : i < data.length)
    (hlk : lookupKey (data.get ⟨i, hi⟩).downloads "chromedriver" = some pds)
    (hno : ∀ pd ∈ pds, pd.platform ≠ "mac-x64") :
    get_chromedriver_download_url response our_version = .error .stopIteration := by
  simp only [get_chromedriver_download_url, hjson, hvers, hbm]
  rw [List.getElem?_eq_getElem hi]
  have hfind : pds.find? (fun entry => entry.platform == "mac-x64") = none :=
    List.find?_eq_none.mpr (fun pd hpd => by simpa using hno pd hpd)
  simp only [List.get_eq_getElem] at hlk
  simp only [entry_url, hlk, hfind]

/-- Catalog response whose single entry has no mac-x64 descriptor. -/
def exCatalogNoMac : Response :=
  ⟨200, some ⟨some [⟨"1", [("chromedriver", [⟨"linux64", "urlL"⟩])]⟩]⟩⟩

/-- Witness for C7. -/
theorem catalog_resolver_missing_platform_error_witness :
    get_chromedriver_download_url exCatalogNoMac "1" = .error .stopIteration :=
  catalog_resolver_missing_platform_error exCatalogNoMac
    ⟨some [⟨"1", [("chromedriver", [⟨"linux64", "urlL"⟩])]⟩]⟩
    [⟨"1", [("chromedriver", [⟨"linux64", "urlL"⟩])]⟩] "1"
    (similarity "1" "1") 0 [⟨"linux64", "urlL"⟩]
    rfl rfl rfl (by decide) rfl (by decide)

end ChromedriverUtils
